import Mathlib

/-!
Verification of the PagerMaid plugin collection against its specification.

Each namespace below is a shallow embedding of one plugin's pure core:

* `Shift`       — `src/shift/main.py` (forwarding relay): chat-id
  normalization, cycle detection for `shift set`, daily statistics.
* `BF`          — `src/bf/main.py` (backup & restore): cron matching,
  archive construction and safe extraction.
* `Aban`        — `src/aban/main.py` (ban manager): mute argument
  parsing and the batch ban operation.
* `Gemini`      — `src/gemini/main.py` (AI assistant): TTS token-limit
  control flow.
* `CleanMember` — `src/clean_member/main.py`: cache reader expiry.

Machine integers are modelled as `Int`/`Nat` (Python integers are
unbounded, so no wrap-around is involved); Python `dict`s backing JSON
objects are association lists; the key-value store and the file system
are explicit finite maps; fallible code returns `Option`/`Except`.
-/

set_option autoImplicit false

namespace PagerMaid

namespace Py

/-! Helpers shared by the embeddings: Python string primitives modelled
over `List Char` (structural recursions, so that all proofs can be
discharged by kernel evaluation).  Unicode-only behaviours (e.g.
`str.isdigit` accepting non-ASCII digits) are outside the model; every
input the claims exercise is ASCII. -/

/-- Whitespace as recognized by `str.split()` / `str.strip()`. -/
def isWs (c : Char) : Bool := c = ' ' || c = '\t' || c = '\n' || c = '\r'

/-- `str.strip()`. -/
def trimWs (cs : List Char) : List Char :=
  ((cs.dropWhile isWs).reverse.dropWhile isWs).reverse

def pySplitWsAux : List Char → List Char → List (List Char)
  | [], cur => if cur.isEmpty then [] else [cur.reverse]
  | c :: cs, cur =>
    if isWs c then
      if cur.isEmpty then pySplitWsAux cs [] else cur.reverse :: pySplitWsAux cs []
    else pySplitWsAux cs (c :: cur)

/-- `str.split()` with no argument: split on whitespace runs, no empty
fields. -/
def pySplitWs (cs : List Char) : List (List Char) := pySplitWsAux cs []

def splitOnCharAux (sep : Char) : List Char → List Char → List (List Char)
  | [], cur => [cur.reverse]
  | c :: cs, cur =>
    if c = sep then cur.reverse :: splitOnCharAux sep cs []
    else splitOnCharAux sep cs (c :: cur)

/-- `str.split(sep)`: every field kept, including empty ones. -/
def splitOnChar (sep : Char) (cs : List Char) : List (List Char) :=
  splitOnCharAux sep cs []

/-- `str.split(sep, 1)` preceded by the `sep in str` test: `none` when
the separator does not occur. -/
def splitOnceChar (sep : Char) : List Char → Option (List Char × List Char)
  | [] => none
  | c :: cs =>
    if c = sep then some ([], cs)
    else (splitOnceChar sep cs).map (fun p => (c :: p.1, p.2))

/-- Non-empty all-digit character run (`str.isdigit` restricted to
ASCII). -/
def isDigits (cs : List Char) : Bool := !cs.isEmpty && cs.all Char.isDigit

/-- Value of a digit run. -/
def digitsToNat (cs : List Char) : Nat :=
  cs.foldl (fun n c => 10 * n + (c.toNat - '0'.toNat)) 0

/-- Python `int(str)`: optional surrounding whitespace, optional sign,
digits; `none` models the `ValueError`. -/
def pyInt (cs : List Char) : Option Int :=
  match trimWs cs with
  | [] => none
  | '-' :: rest => if isDigits rest then some (-(digitsToNat rest : Int)) else none
  | '+' :: rest => if isDigits rest then some ((digitsToNat rest : Int)) else none
  | t => if isDigits t then some ((digitsToNat t : Int)) else none

def startsWithList : List Char → List Char → Bool
  | [], _ => true
  | _ :: _, [] => false
  | p :: ps, c :: cs => p == c && startsWithList ps cs

/-- `str.endswith(suffix)`. -/
def endsWithList (suffix cs : List Char) : Bool :=
  startsWithList suffix.reverse cs.reverse

/-- `str.endswith(suffix)` on `String`s. -/
def pyEndsWith (s suffix : String) : Bool := endsWithList suffix.toList s.toList

/-- Boolean list membership (Python `in` on a list or set of ints). -/
def memB (v : Int) : List Int → Bool
  | [] => false
  | x :: xs => x == v || memB v xs

/-- Extensional equality of two integer collections (Python `set`
equality applied to the values of the two lists). -/
def setEqB (xs ys : List Int) : Bool :=
  xs.all (fun v => memB v ys) && ys.all (fun v => memB v xs)

/-- Boolean prefix test on component lists (`str.startswith` on the
corresponding paths). -/
def isPrefixB : List String → List String → Bool
  | [], _ => true
  | _ :: _, [] => false
  | a :: as, b :: bs => a == b && isPrefixB as bs

/-- Whether a fallible computation raised. -/
def isError {α : Type} : Except String α → Bool
  | Except.error _ => true
  | Except.ok _ => false

end Py

namespace Shift

/-- Telethon entity kinds relevant to `normalize_chat_id`:
`Channel` (channel / supergroup), `Chat` (basic group), `User`.
Each carries its raw (internal) `id` attribute. -/
inductive Entity where
  | channel (id : Int)
  | chat (id : Int)
  | user (id : Int)
deriving DecidableEq, Repr

/-- Argument of `normalize_chat_id`: either an entity (an object with an
`id` attribute) or a bare integer id. -/
inductive EntityOrId where
  | entity (e : Entity)
  | raw (id : Int)
deriving DecidableEq, Repr

/-- `normalize_chat_id` (src/shift/main.py lines 119-135): channels and
supergroups with a positive raw id map to `-1000000000000 - id`, basic
groups with a positive id map to `-id`, anything else (users, already
negative ids) is returned unchanged; a bare integer above `1000000000`
is assumed to be a channel id and gets the channel convention. -/
def normalize_chat_id : EntityOrId → Int
  | .entity (.channel cid) => if cid > 0 then -1000000000000 - cid else cid
  | .entity (.chat cid) => if cid > 0 then -cid else cid
  | .entity (.user cid) => cid
  | .raw n => if n > 1000000000 then -1000000000000 - n else n

/-- The `peer_id` of an incoming message: `PeerChannel`, `PeerChat` or
`PeerUser` with the raw (positive) id. -/
inductive Peer where
  | channel (id : Int)
  | chat (id : Int)
  | user (id : Int)
deriving DecidableEq, Repr

/-- A message as inspected by `get_chat_id_from_message`: either it
carries a `chat_id` attribute (already in the signed convention) or only
a `peer_id`. -/
inductive MsgSource where
  | withChatId (cid : Int)
  | withPeer (p : Peer)
deriving DecidableEq, Repr

/-- `get_chat_id_from_message` (src/shift/main.py lines 579-590): uses
the message's `chat_id` when present, otherwise derives the signed id
from the `peer_id` with the same convention as `normalize_chat_id`. -/
def get_chat_id_from_message : MsgSource → Int
  | .withChatId cid => cid
  | .withPeer (.channel c) => -1000000000000 - c
  | .withPeer (.chat g) => -g
  | .withPeer (.user u) => u

/-- The persisted rule store, restricted to the field `is_circular_forward`
reads: for each source chat id, the parsed `target_id` of its rule
(`none` when no rule is stored or the stored JSON does not parse). -/
abbrev RuleStore := Int → Option Int

/-- The `for _ in range(20)` loop body of `is_circular_forward`
(src/shift/main.py lines 90-103): at each step the current node is
tested against the visited set, then the walk follows the persisted
rule's `target_id`; a missing rule or the `-1` sentinel
(`rule.get("target_id", -1) == -1`) breaks the loop. -/
def icfLoop (store : RuleStore) : Nat → List Int → Int → Bool
  | 0, _, _ => false
  | fuel + 1, visited, current =>
    if current ∈ visited then true
    else
      match store current with
      | none => false
      | some next =>
        if next = -1 then false
        else icfLoop store fuel (current :: visited) next

/-- `is_circular_forward` (src/shift/main.py lines 85-104), first
component of the returned pair (the message string is not modelled):
rejects `source_id = target_id` outright, then walks up to 20 hops from
the target looking for a node already visited (the source initially). -/
def is_circular_forward (store : RuleStore) (source_id target_id : Int) : Bool :=
  if source_id = target_id then true
  else icfLoop store 20 [source_id] target_id

/-- Outcome of the persistence step of `shift_func_set`
(src/shift/main.py lines 231-246): whether the rule was accepted, and
the rule store afterwards. -/
structure SetOutcome where
  accepted : Bool
  store : RuleStore

/-- The cycle-check-then-persist step of `shift_func_set`
(src/shift/main.py lines 233-246): if `is_circular_forward` reports a
cycle the command returns without writing, otherwise the rule
`source_id → target_id` is written to the store. -/
def shift_set_rule (store : RuleStore) (source_id target_id : Int) : SetOutcome :=
  if is_circular_forward store source_id target_id then ⟨false, store⟩
  else ⟨true, fun k => if k = source_id then some target_id else store k⟩

/-- A chain of persisted rules `a → b₁ → b₂ → …` (each step reads the
stored rule of the previous node), where no step's target is the `-1`
sentinel that `is_circular_forward` treats as "no rule". -/
def isChainB (store : RuleStore) : Int → List Int → Bool
  | _, [] => true
  | a, b :: rest =>
    decide (store a = some b) && decide (b ≠ -1) && isChainB store b rest

/-- Daily statistics record for one `(source_id, day)` key: the JSON
object as an association list from counter name to value. -/
abbrev Stats := List (String × Int)

/-- `stats.get(k, 0)` on the parsed JSON object. -/
def statsGet : Stats → String → Int
  | [], _ => 0
  | (k', v') :: rest, k => if k' = k then v' else statsGet rest k

/-- `stats[k] = v` on the parsed JSON object (replace or append). -/
def statsSet : Stats → String → Int → Stats
  | [], k, v => [(k, v)]
  | (k', v') :: rest, k, v =>
    if k' = k then (k, v) :: rest else (k', v') :: statsSet rest k v

/-- `update_stats` (src/shift/main.py lines 150-159), acting on the
record stored under the day's key: `stats["total"] += 1` then
`stats[message_type] += 1` (each via `get(…, 0)` on a possibly absent
counter). -/
def update_stats (s : Stats) (message_type : String) : Stats :=
  let s1 := statsSet s "total" (statsGet s "total" + 1)
  statsSet s1 message_type (statsGet s1 message_type + 1)

/-- Sum of all per-message-type counters of a record (every counter
except `"total"`). -/
def typeSum (s : Stats) : Int :=
  ((s.filter (fun e => e.1 != "total")).map Prod.snd).sum

/-- `AVAILABLE_OPTIONS` (src/shift/main.py lines 36-47).  The Python
object is a `set`; its iteration order in `get_media_type` is therefore
unspecified, and this list fixes the literal's order.  None of the
claims depends on the order, only on the set of members. -/
def AVAILABLE_OPTIONS : List String :=
  ["silent", "text", "all", "photo", "document", "video", "sticker",
   "animation", "voice", "audio"]

/-- The attributes of a Telethon message probed by `get_media_type`:
the media flags (truthy when the message carries that media) and the
text body (`message.text`, truthy when non-empty).  A message object has
no `all` attribute. -/
structure MsgMedia where
  silent : Bool
  photo : Bool
  document : Bool
  video : Bool
  sticker : Bool
  animation : Bool
  voice : Bool
  audio : Bool
  text : String
deriving DecidableEq, Repr

/-- `hasattr(message, opt) and getattr(message, opt)` for one option
name. -/
def hasTruthy (m : MsgMedia) : String → Bool
  | "silent" => m.silent
  | "text" => !m.text.isEmpty
  | "photo" => m.photo
  | "document" => m.document
  | "video" => m.video
  | "sticker" => m.sticker
  | "animation" => m.animation
  | "voice" => m.voice
  | "audio" => m.audio
  | _ => false

/-- `get_media_type` (src/shift/main.py lines 572-576): the first
available-option attribute that is present and truthy, else `"text"`. -/
def get_media_type (m : MsgMedia) : String :=
  match AVAILABLE_OPTIONS.find? (hasTruthy m) with
  | some t => t
  | none => "text"

end Shift

namespace BF

open Py

/-! ### Cron matching (src/bf/main.py lines 143-225) -/

/-- Python `range(a, b, step)` for a positive step, in closed form. -/
def pyRange (a b step : Int) : List Int :=
  if 0 < step then
    (List.range (((b - a).toNat + (step.toNat - 1)) / step.toNat)).map
      (fun (k : Nat) => a + step * (k : Int))
  else []

/-- `add_range` inside `_parse_cron_field` (src/bf/main.py lines
151-157): clamp the endpoints to the field's valid range, sanitize the
step, and add `range(a, b + 1, step)`. -/
def addRange (minV maxV a b step : Int) : List Int :=
  let a' := max minV a
  let b' := min maxV b
  let st := if step ≤ 0 then 1 else step
  pyRange a' (b' + 1) st

/-- The comma-separated-parts loop of `_parse_cron_field` (src/bf/main.py
lines 169-189); `none` models an `int()` `ValueError` escaping to the
caller. -/
def parseCronParts (minV maxV : Int) : List (List Char) → Option (List Int)
  | [] => some []
  | part :: rest =>
    let p := trimWs part
    if p.isEmpty then parseCronParts minV maxV rest
    else
      let vals? : Option (List Int) :=
        match splitOnceChar '/' p with
        | some (rng, stepS) =>
          match pyInt stepS with
          | none => none
          | some step =>
            if rng = ['*'] then some (addRange minV maxV minV maxV step)
            else
              match splitOnceChar '-' rng with
              | some (aS, bS) =>
                match pyInt aS, pyInt bS with
                | some a, some b => some (addRange minV maxV a b step)
                | _, _ => none
              | none => (pyInt rng).map (fun v => [v])
        | none =>
          match splitOnceChar '-' p with
          | some (aS, bS) =>
            match pyInt aS, pyInt bS with
            | some a, some b => some (addRange minV maxV a b 1)
            | _, _ => none
          | none => (pyInt p).map (fun v => [v])
      match vals? with
      | none => none
      | some vs => (parseCronParts minV maxV rest).map (fun ws => vs ++ ws)

/-- `_parse_cron_field` (src/bf/main.py lines 143-191).  The returned
list is read as a set (only membership matters); the trailing
out-of-range filter applies — exactly as in the source — only on the
comma-list path, not on the `*` and `*/n` early returns. -/
def parseCronField (field : List Char) (minV maxV : Int) : Option (List Int) :=
  let f := trimWs field
  if f = ['*'] then some (pyRange minV (maxV + 1) 1)
  else
    match f with
    | '*' :: '/' :: stepS =>
      (pyInt stepS).map (fun step => addRange minV maxV minV maxV step)
    | _ =>
      (parseCronParts minV maxV (splitOnChar ',' f)).map
        (fun vs => vs.filter (fun v => minV ≤ v && v ≤ maxV))

/-- The time point `_cron_matches` inspects: `now.minute`, `now.hour`,
`now.day`, `now.month` and Python's `now.weekday()`
(Monday = 0 … Sunday = 6). -/
structure Instant where
  minute : Int
  hour : Int
  day : Int
  month : Int
  weekday : Int
deriving DecidableEq, Repr

/-- Body of `_cron_matches` (src/bf/main.py lines 200-223) once the
expression has been split into its five fields. -/
def cronMatchesFields (mF hF domF monF dowF : List Char) (now : Instant) : Bool :=
  match parseCronField mF 0 59, parseCronField hF 0 23, parseCronField domF 1 31,
        parseCronField monF 1 12, parseCronField dowF 0 6 with
  | some mSet, some hSet, some domSet, some monSet, some dowSet =>
    let cronDow := (now.weekday + 1) % 7
    let domMatch := memB now.day domSet
    let dowMatch := memB cronDow dowSet
    let dayOk :=
      if !setEqB domSet (pyRange 1 32 1) && !setEqB dowSet (pyRange 0 7 1) then
        domMatch || dowMatch
      else
        domMatch && dowMatch
    memB now.minute mSet && memB now.hour hSet && memB now.month monSet && dayOk
  | _, _, _, _, _ => false

/-- `_cron_matches` (src/bf/main.py lines 194-225): split the expression
on whitespace, require exactly five fields, parse each field (any
exception yields `False`) and combine the matches; day-of-month and
day-of-week use OR only when both parsed sets differ from their full
ranges. -/
def cron_matches (expr : String) (now : Instant) : Bool :=
  match pySplitWs expr.toList with
  | [f1, f2, f3, f4, f5] => cronMatchesFields f1 f2 f3 f4 f5 now
  | _ => false

/-- Modelled from the spec (claim C5's general rule, for comparison with
`cron_matches`): "day-of-month and day-of-week are combined with OR
semantics when either is non-wildcard and with AND semantics when both
are wildcard". -/
def cronMatchesFieldsClaim (mF hF domF monF dowF : List Char) (now : Instant) : Bool :=
  match parseCronField mF 0 59, parseCronField hF 0 23, parseCronField domF 1 31,
        parseCronField monF 1 12, parseCronField dowF 0 6 with
  | some mSet, some hSet, some domSet, some monSet, some dowSet =>
    let cronDow := (now.weekday + 1) % 7
    let domMatch := memB now.day domSet
    let dowMatch := memB cronDow dowSet
    let dayOk :=
      if !setEqB domSet (pyRange 1 32 1) || !setEqB dowSet (pyRange 0 7 1) then
        domMatch || dowMatch
      else
        domMatch && dowMatch
    memB now.minute mSet && memB now.hour hSet && memB now.month monSet && dayOk
  | _, _, _, _, _ => false

/-- Modelled from the spec: `cron_matches` with the claim's field
combination rule. -/
def cron_matches_claim (expr : String) (now : Instant) : Bool :=
  match pySplitWs expr.toList with
  | [f1, f2, f3, f4, f5] => cronMatchesFieldsClaim f1 f2 f3 f4 f5 now
  | _ => false

/-! ### Archive construction and safe extraction
(src/bf/main.py lines 515-559 and 610-645)

File-system paths are lists of components.  A component is well formed
when it is none of `""`, `"."`, `".."` and contains no separator — which
is what `os.walk` yields, so every real tree satisfies it. -/

/-- One path component. -/
abbrev Comp := String

def wfComp (c : Comp) : Bool :=
  !(c = "" || c = "." || c = ".." || c.toList.contains '/')

/-- One step of `os.path.normpath` on a relative path: drop `""`/`"."`,
let `".."` cancel a preceding real component, keep leading `".."`s. -/
def normRelStep (acc : List Comp) (c : Comp) : List Comp :=
  if c = "" || c = "." then acc
  else if c = ".." then
    match acc.getLast? with
    | none => [".."]
    | some ".." => acc ++ [".."]
    | some _ => acc.dropLast
  else acc ++ [c]

/-- `os.path.normpath` on the components of a relative path. -/
def normRel (cs : List Comp) : List Comp := cs.foldl normRelStep []

/-- One step of normalization of an absolute path (under the root,
`".."` moves up and stops at the root). -/
def normAbsStep (acc : List Comp) (c : Comp) : List Comp :=
  if c = "" || c = "." then acc
  else if c = ".." then acc.dropLast
  else acc ++ [c]

/-- `os.path.abspath(os.path.join(target, rel))` for an absolute,
already-normalized `target`: normalize the concatenation. -/
def normAbs (cs : List Comp) : List Comp := cs.foldl normAbsStep []

/-- A tar archive member: whether its name is an absolute path, its
name's components, and the file content it would extract to. -/
structure TarMember where
  isAbs : Bool
  comps : List Comp
  content : String
deriving DecidableEq, Repr

/-- `allowed_dirs` (src/bf/main.py line 628). -/
def ALLOWED_DIRS : List String := ["plugins", "data", "pagermaid_backup"]

/-- The per-member validation of `safe_extract` (src/bf/main.py lines
614-631), in source order: normalize the member name, reject absolute
paths, reject names whose resolved location leaves the target root,
reject top-level components outside the allow-list.  `target` is the
absolute extraction directory as components. -/
def checkMember (target : List Comp) (m : TarMember) : Except String Unit :=
  let memberPath := normRel m.comps
  if m.isAbs then Except.error "absolute path in archive member"
  else
    let fullPath := normAbs (target ++ memberPath)
    if !isPrefixB target fullPath then Except.error "path traversal in archive member"
    else if !ALLOWED_DIRS.contains (memberPath.headD ".") then
      Except.error "archive member outside allowed directories"
    else Except.ok ()

/-- The `for member in tar.getmembers()` loop of `safe_extract`: the
first failing check aborts the whole extraction. -/
def checkAllMembers (target : List Comp) : List TarMember → Except String Unit
  | [] => Except.ok ()
  | m :: rest =>
    match checkMember target m with
    | Except.error e => Except.error e
    | Except.ok () => checkAllMembers target rest

/-- `safe_extract` (src/bf/main.py lines 610-634): every member is
checked before any extraction happens; on success `tar.extractall`
writes each member at its (target-relative) name. -/
def safe_extract (target : List Comp) (members : List TarMember) :
    Except String (List (List Comp × String)) :=
  match checkAllMembers target members with
  | Except.error e => Except.error e
  | Except.ok () => Except.ok (members.map (fun m => (m.comps, m.content)))

/-- `un_tar_gz` (src/bf/main.py lines 637-645): `True` plus the written
files on success, `False` and no writes when `safe_extract` raised. -/
def un_tar_gz (target : List Comp) (members : List TarMember) :
    Bool × List (List Comp × String) :=
  match safe_extract target members with
  | Except.ok files => (true, files)
  | Except.error _ => (false, [])

/-- A directory tree as the list of its files: path components relative
to the program directory, plus content. -/
abbrev FS := List (List Comp × String)

/-- `*.session` / `*.session-journal` test used by the backup walk
(src/bf/main.py lines 544-546). -/
def isSessionFile (fname : Comp) : Bool :=
  pyEndsWith fname ".session" || pyEndsWith fname ".session-journal"

/-- Whether the walk of `_add_tree` over the tree rooted at component
`tree` includes the file at path `p` (src/bf/main.py lines 537-555):
the path lies under `tree`, none of its directory components is
`__pycache__` (pruned from `dirs`), and — when `exclude_session` — its
file name is not a session file.  (The `rel.startswith("..")` guard is
vacuous here: `rel` is produced by `os.path.relpath` under the walk
root.) -/
def backupIncludes (excludeSession : Bool) (tree : Comp) (p : List Comp) : Bool :=
  match p with
  | [] => false
  | top :: rest =>
    top == tree && !rest.isEmpty && !rest.dropLast.contains "__pycache__" &&
      !(excludeSession && isSessionFile (rest.getLastD ""))

/-- `create_data_plugins_backup` (src/bf/main.py lines 515-559): walk
the `plugins` tree then the `data` tree, archiving each included file
under `archive_root/<relative path>`. -/
def create_data_plugins_backup (fs : FS) (excludeSession : Bool)
    (archiveRoot : Comp) : List TarMember :=
  ((fs.filter (fun e => backupIncludes excludeSession "plugins" e.1)) ++
   (fs.filter (fun e => backupIncludes excludeSession "data" e.1))).map
    (fun e => ⟨false, archiveRoot :: e.1, e.2⟩)

/-- Well-formed file path: non-empty, every component well formed. -/
def wfPath (p : List Comp) : Bool := !p.isEmpty && p.all wfComp

/-- Well-formed file tree: distinct paths, all of them well formed —
exactly what a walk of a real directory tree yields. -/
def wfFS (fs : FS) : Prop :=
  (fs.map Prod.fst).Nodup ∧ ∀ e ∈ fs, wfPath e.1 = true

end BF

namespace Aban

open Py

/-- `args[1].isdigit()` (ASCII digits; see `Py.isDigits`). -/
def pyIsDigit (s : String) : Bool := isDigits s.toList

/-- The default reason of `mute_user` (src/aban/main.py line 641). -/
def DEFAULT_MUTE_REASON : String := "违规发言"

/-- The minutes/reason parsing of `mute_user` (src/aban/main.py lines
640-650), applied to the command's argument list (`args[0]` is the
target token): a digit second argument is clamped with
`max(1, min(int(args[1]), 1440))` and any further tokens form the
reason; a non-digit second argument leaves the default 60 minutes and
the whole tail becomes the reason. -/
def mute_user_parse (args : List String) : Nat × String :=
  match args with
  | _ :: a1 :: rest =>
    if pyIsDigit a1 then
      (max 1 (min (digitsToNat a1.toList) 1440),
       if rest.isEmpty then DEFAULT_MUTE_REASON else String.intercalate " " rest)
    else
      (60, String.intercalate " " (a1 :: rest))
  | _ => (60, DEFAULT_MUTE_REASON)

/-- Modelled from the spec (claim C6, for comparison with
`mute_user_parse`): "a non-numeric minutes value is rejected as
InvalidArgument" — `none` models the rejection. -/
def mute_user_parse_claim (args : List String) : Option (Nat × String) :=
  match args with
  | _ :: a1 :: rest =>
    if pyIsDigit a1 then
      some (max 1 (min (digitsToNat a1.toList) 1440),
            if rest.isEmpty then DEFAULT_MUTE_REASON else String.intercalate " " rest)
    else none
  | _ => some (60, DEFAULT_MUTE_REASON)

/-- A managed group as consumed by `batch_ban_operation`:
`{'id': …, 'title': …}`. -/
structure Group where
  id : Int
  title : String
deriving DecidableEq, Repr

/-- `BATCH_SIZE` (src/aban/main.py line 14). -/
def BATCH_SIZE : Nat := 20

/-- Accumulated result of `batch_ban_operation`. -/
structure BatchResult where
  success : Nat
  failed : Nat
  failedGroups : List String
deriving DecidableEq, Repr

/-- `process_group` (src/aban/main.py lines 331-339) with the per-group
outcome of `safe_ban_action` given by the deterministic `action`
(`safe_ban_action` catches every exception and returns a boolean, so no
exception escapes): `(True, None)` on success, `(False, title)` on
failure. -/
def processGroup (action : Group → Bool) (g : Group) : Bool × Option String :=
  if action g then (true, none) else (false, some g.title)

/-- The per-result accumulation of `batch_ban_operation` (src/aban/main.py
lines 346-355); a failure title is appended only when truthy
(`if result[1]:`), i.e. non-empty. -/
def batchStep (acc : BatchResult) (r : Bool × Option String) : BatchResult :=
  match r with
  | (true, _) => { acc with success := acc.success + 1 }
  | (false, none) => { acc with failed := acc.failed + 1 }
  | (false, some t) =>
    { acc with
      failed := acc.failed + 1,
      failedGroups := if t.isEmpty then acc.failedGroups else acc.failedGroups ++ [t] }

/-- The chunked loop of `batch_ban_operation` (src/aban/main.py lines
342-355): the groups are processed in batches of `BATCH_SIZE` via
`asyncio.gather`, which returns the batch's results in list order. -/
def batchLoop (action : Group → Bool) : List Group → BatchResult → BatchResult
  | [], acc => acc
  | g :: gs, acc =>
    let batch := g :: gs.take (BATCH_SIZE - 1)
    let rest := gs.drop (BATCH_SIZE - 1)
    batchLoop action rest ((batch.map (processGroup action)).foldl batchStep acc)
termination_by gs _ => gs.length
decreasing_by
  simp only [List.length_cons]
  have := List.length_drop (BATCH_SIZE - 1) gs
  omega

/-- `batch_ban_operation` (src/aban/main.py lines 325-357): success
count, failure count, and the failing groups' titles. -/
def batch_ban_operation (action : Group → Bool) (groups : List Group) : BatchResult :=
  batchLoop action groups ⟨0, 0, []⟩

/-- The reporting step of `super_ban` (src/aban/main.py lines 492-493):
failing titles are listed only when there are no more than 3 of them,
and then at most the first 3. -/
def listedFailedTitles (r : BatchResult) : List String :=
  if !r.failedGroups.isEmpty && r.failedGroups.length ≤ 3 then r.failedGroups.take 3
  else []

end Aban

namespace Gemini

/-- The provider endpoints `_call_gemini_tts_api` can hit. -/
inductive GeminiCall where
  | countTokens
  | synthesize
deriving DecidableEq, Repr

/-- The environment of one TTS invocation: the text sanitizer
(markdown → plain text, emoji stripped, whitespace collapsed — external
libraries, kept abstract), the provider's token counter, and whether
the ffmpeg transcode of a synthesized reply succeeds. -/
structure TtsEnv where
  cleanText : String → String
  tokenCount : String → Nat
  ffmpegOk : Bool

/-- Outcome of `blocking_tts_call` inside `_call_gemini_tts_api`
(src/gemini/main.py lines 343-382). -/
inductive TtsOutcome where
  | audio
  | tokenLimitError (totalTokens : Nat)
  | emptyTextError
deriving DecidableEq, Repr

/-- `blocking_tts_call` (src/gemini/main.py lines 343-382): sanitize the
input, fail on empty text before any provider call, count tokens, raise
`TOKEN_LIMIT_EXCEEDED` when the reported count exceeds 1500 — before
the synthesis stream is opened — and otherwise synthesize.  The first
component records, in order, the provider endpoints that were called. -/
def blocking_tts_call (env : TtsEnv) (text : String) : List GeminiCall × TtsOutcome :=
  let clean := env.cleanText text
  if clean = "" then ([], TtsOutcome.emptyTextError)
  else
    let n := env.tokenCount clean
    if n > 1500 then ([GeminiCall.countTokens], TtsOutcome.tokenLimitError n)
    else ([GeminiCall.countTokens, GeminiCall.synthesize], TtsOutcome.audio)

/-- What `_execute_audio_request` finally delivers to the chat. -/
inductive Delivered where
  | voiceNote
  | textReply
  | errorOnly
deriving DecidableEq, Repr

/-- `_execute_audio_request` (src/gemini/main.py lines 991-1033) from
the point where the chat/search reply `text` is handed to
`_generate_and_send_audio`: a `TOKEN_LIMIT_EXCEEDED` error is caught
and the reply is delivered as text (`_send_response`); a successful
synthesis is delivered as a voice note, unless the ffmpeg encode fails,
in which case the text fallback is used as well; the empty-text error
is reported inside `_call_gemini_tts_api` and nothing further is sent. -/
def execute_audio_request (env : TtsEnv) (text : String) : List GeminiCall × Delivered :=
  match blocking_tts_call env text with
  | (calls, TtsOutcome.tokenLimitError _) => (calls, Delivered.textReply)
  | (calls, TtsOutcome.emptyTextError) => (calls, Delivered.errorOnly)
  | (calls, TtsOutcome.audio) =>
    (calls, if env.ffmpegOk then Delivered.voiceNote else Delivered.textReply)

end Gemini

namespace CleanMember

/-- The fields of a cleanup cache record that `load_cache` inspects:
the recorded `expire_time` (as a timestamp) and the rest of the record,
kept opaque. -/
structure CacheEntry where
  expire_time : Int
  payload : String
deriving DecidableEq, Repr

/-- A cache file on disk: either a record that parses and has an
`expire_time`, or content on which `json.load` /
`datetime.fromisoformat` raises. -/
inductive StoredCache where
  | ok (e : CacheEntry)
  | corrupt
deriving DecidableEq, Repr

/-- Cache key `(chat_id, mode, day)` as in `get_cache_filename`. -/
abbrev CacheKey := Int × String × String

/-- The cache directory as a map from key to file. -/
abbrev CacheFS := CacheKey → Option StoredCache

/-- `load_cache` (src/clean_member/main.py lines 156-176): absent file →
`None`; unparseable file → `None` (exception caught, file kept); parsed
record whose `expire_time` is strictly before `now` → the file is
removed and `None` returned; otherwise the record is returned.  The
result pairs the returned value with the cache directory afterwards. -/
def load_cache (fs : CacheFS) (now : Int) (key : CacheKey) :
    Option CacheEntry × CacheFS :=
  match fs key with
  | none => (none, fs)
  | some StoredCache.corrupt => (none, fs)
  | some (StoredCache.ok e) =>
    if now > e.expire_time then
      (none, fun k => if k = key then none else fs k)
    else (some e, fs)

end CleanMember

/-! ## Theorems -/

namespace Shift

/-- C4: chat-id normalization maps a channel/supergroup with raw
positive internal id 123 to -1000000000123, a basic group with id 50 to
-50, and leaves a user id unchanged; `get_chat_id_from_message` derives
the source id of an incoming message with the same signed convention,
so stored rule keys and lookup keys agree. -/
theorem C4_normalize_chat_id_convention :
    normalize_chat_id (EntityOrId.entity (Entity.channel 123)) = -1000000000123 ∧
    normalize_chat_id (EntityOrId.entity (Entity.chat 50)) = -50 ∧
    (∀ u : Int, normalize_chat_id (EntityOrId.entity (Entity.user u)) = u) ∧
    (∀ c : Int, c > 0 →
      get_chat_id_from_message (MsgSource.withPeer (Peer.channel c)) =
        normalize_chat_id (EntityOrId.entity (Entity.channel c))) ∧
    (∀ g : Int, g > 0 →
      get_chat_id_from_message (MsgSource.withPeer (Peer.chat g)) =
        normalize_chat_id (EntityOrId.entity (Entity.chat g))) ∧
    (∀ u : Int, get_chat_id_from_message (MsgSource.withPeer (Peer.user u)) =
        normalize_chat_id (EntityOrId.entity (Entity.user u))) := by
  refine ⟨by decide, by decide, fun u => rfl, ?_, ?_, fun u => rfl⟩
  · intro c hc
    simp [normalize_chat_id, get_chat_id_from_message, hc]
  · intro g hg
    simp [normalize_chat_id, get_chat_id_from_message, hg]

/-- Witness for C4 at channel id 123 and basic-group id 50. -/
theorem C4_normalize_chat_id_convention_witness :
    get_chat_id_from_message (MsgSource.withPeer (Peer.channel 123)) =
      normalize_chat_id (EntityOrId.entity (Entity.channel 123)) ∧
    get_chat_id_from_message (MsgSource.withPeer (Peer.chat 50)) =
      normalize_chat_id (EntityOrId.entity (Entity.chat 50)) :=
  ⟨C4_normalize_chat_id_convention.2.2.2.1 123 (by decide),
   C4_normalize_chat_id_convention.2.2.2.2.1 50 (by decide)⟩

theorem statsGet_statsSet_self (s : Stats) (k : String) (v : Int) :
    statsGet (statsSet s k v) k = v := by
  induction s with
  | nil => simp [statsSet, statsGet]
  | cons hd tl ih =>
    obtain ⟨k0, v0⟩ := hd
    by_cases hk : k0 = k
    · subst hk
      simp [statsSet, statsGet]
    · simp [statsSet, statsGet, hk, ih]

theorem statsGet_statsSet_ne (s : Stats) (k k' : String) (v : Int) (h : k' ≠ k) :
    statsGet (statsSet s k v) k' = statsGet s k' := by
  induction s with
  | nil => simp [statsSet, statsGet, Ne.symm h]
  | cons hd tl ih =>
    obtain ⟨k0, v0⟩ := hd
    by_cases hk : k0 = k
    · subst hk
      simp [statsSet, statsGet, Ne.symm h]
    · by_cases hk' : k0 = k'
      · subst hk'
        simp [statsSet, statsGet, hk]
      · simp [statsSet, statsGet, hk, hk', ih]

theorem typeSum_cons (k0 : String) (v0 : Int) (tl : Stats) :
    typeSum ((k0, v0) :: tl) = (if k0 = "total" then 0 else v0) + typeSum tl := by
  by_cases h : k0 = "total" <;> simp [typeSum, List.filter_cons, h]

theorem typeSum_statsSet_total (s : Stats) (v : Int) :
    typeSum (statsSet s "total" v) = typeSum s := by
  induction s with
  | nil => simp [statsSet, typeSum]
  | cons hd tl ih =>
    obtain ⟨k0, v0⟩ := hd
    by_cases hk : k0 = "total"
    · subst hk
      simp [statsSet, typeSum_cons]
    · simp [statsSet, hk, typeSum_cons, ih]

theorem typeSum_statsSet_ne_total (s : Stats) (k : String) (v : Int) (hk : k ≠ "total") :
    typeSum (statsSet s k v) = typeSum s + v - statsGet s k := by
  induction s with
  | nil =>
    simp [statsSet, typeSum_cons, typeSum, statsGet, hk]
  | cons hd tl ih =>
    obtain ⟨k0, v0⟩ := hd
    by_cases hk0 : k0 = k
    · subst hk0
      simp [statsSet, typeSum_cons, statsGet, hk]
      ring
    · simp [statsSet, hk0, typeSum_cons, statsGet, ih]
      ring

theorem update_stats_counters (s : Stats) (mt : String) (hmt : mt ≠ "total") :
    statsGet (update_stats s mt) "total" = statsGet s "total" + 1 ∧
    statsGet (update_stats s mt) mt = statsGet s mt + 1 ∧
    typeSum (update_stats s mt) = typeSum s + 1 := by
  unfold update_stats
  refine ⟨?_, ?_, ?_⟩
  · rw [statsGet_statsSet_ne _ _ _ _ (Ne.symm hmt), statsGet_statsSet_self]
  · rw [statsGet_statsSet_self, statsGet_statsSet_ne _ _ _ _ hmt]
  · rw [typeSum_statsSet_ne_total _ _ _ hmt, typeSum_statsSet_total,
      statsGet_statsSet_ne _ _ _ _ hmt]
    ring

theorem foldl_update_stats_invariant (mts : List String) (s : Stats)
    (hs : statsGet s "total" = typeSum s) (hall : ∀ x ∈ mts, x ≠ "total") :
    statsGet (mts.foldl update_stats s) "total" = typeSum (mts.foldl update_stats s) := by
  induction mts generalizing s with
  | nil => simpa using hs
  | cons mt rest ih =>
    have hmt : mt ≠ "total" := hall mt (by simp)
    have h := update_stats_counters s mt hmt
    exact ih (update_stats s mt) (by rw [h.1, h.2.2, hs]) (fun x hx => hall x (by simp [hx]))

theorem get_media_type_ne_total (m : MsgMedia) : get_media_type m ≠ "total" := by
  unfold get_media_type
  cases hf : AVAILABLE_OPTIONS.find? (hasTruthy m) with
  | none => decide
  | some t =>
    have ht := List.mem_of_find?_eq_some hf
    simp only [AVAILABLE_OPTIONS, List.mem_cons, List.not_mem_nil, or_false] at ht
    rcases ht with rfl | rfl | rfl | rfl | rfl | rfl | rfl | rfl | rfl | rfl <;> decide

/-- C10: every `update_stats` call bumps `total` by exactly 1 and
exactly one other counter (the message type's) by exactly 1, leaving
all other counters unchanged; hence, starting from an absent record,
`total` always equals the sum of the per-message-type counters — and
`get_media_type` can never produce the key `"total"`, so the hypothesis
holds for every recorded call. -/
theorem C10_update_stats_total_invariant (s : Stats) (mt k : String)
    (mts : List String) (m : MsgMedia) (hmt : mt ≠ "total")
    (hk1 : k ≠ "total") (hk2 : k ≠ mt) (hall : ∀ x ∈ mts, x ≠ "total") :
    statsGet (update_stats s mt) "total" = statsGet s "total" + 1 ∧
    statsGet (update_stats s mt) mt = statsGet s mt + 1 ∧
    statsGet (update_stats s mt) k = statsGet s k ∧
    (statsGet s "total" = typeSum s →
      statsGet (update_stats s mt) "total" = typeSum (update_stats s mt)) ∧
    statsGet (mts.foldl update_stats []) "total" = typeSum (mts.foldl update_stats []) ∧
    get_media_type m ≠ "total" := by
  have h := update_stats_counters s mt hmt
  refine ⟨h.1, h.2.1, ?_, ?_, ?_, ?_⟩
  · unfold update_stats
    rw [statsGet_statsSet_ne _ _ _ _ hk2, statsGet_statsSet_ne _ _ _ _ hk1]
  · intro hinv
    rw [h.1, h.2.2, hinv]
  · exact foldl_update_stats_invariant mts [] (by simp [statsGet, typeSum]) hall
  · exact get_media_type_ne_total m

/-- Witness for C10 at a concrete record and message-type sequence. -/
theorem C10_update_stats_total_invariant_witness :
    statsGet (update_stats [("total", 2), ("photo", 2)] "photo") "total" = 2 + 1 ∧
    statsGet (update_stats [("total", 2), ("photo", 2)] "photo") "photo" = 2 + 1 ∧
    statsGet (update_stats [("total", 2), ("photo", 2)] "photo") "video" =
      statsGet [("total", 2), ("photo", 2)] "video" ∧
    (statsGet [(("total" : String), (2 : Int)), ("photo", 2)] "total" =
        typeSum [("total", 2), ("photo", 2)] →
      statsGet (update_stats [("total", 2), ("photo", 2)] "photo") "total" =
        typeSum (update_stats [("total", 2), ("photo", 2)] "photo")) ∧
    statsGet (["photo", "text", "photo"].foldl update_stats []) "total" =
      typeSum (["photo", "text", "photo"].foldl update_stats []) ∧
    get_media_type ⟨false, true, false, false, false, false, false, false, ""⟩ ≠ "total" := by
  have h := C10_update_stats_total_invariant [("total", 2), ("photo", 2)] "photo" "video"
    ["photo", "text", "photo"] ⟨false, true, false, false, false, false, false, false, ""⟩
    (by decide) (by decide) (by decide) (by decide)
  exact ⟨h.1, h.2.1, h.2.2.1, h.2.2.2.1, h.2.2.2.2.1, h.2.2.2.2.2⟩

theorem icfLoop_reaches_visited (store : RuleStore) (s : Int) :
    ∀ (cs : List Int) (a : Int) (visited : List Int) (fuel : Nat),
      isChainB store a cs = true → cs.getLastD a = s → s ∈ visited →
      cs.length < fuel → icfLoop store fuel visited a = true := by
  intro cs
  induction cs with
  | nil =>
    intro a visited fuel _ hlast hvis hfuel
    obtain ⟨n, rfl⟩ : ∃ n, fuel = n + 1 := ⟨fuel - 1, by omega⟩
    simp only [List.getLastD_nil] at hlast
    subst hlast
    simp [icfLoop, hvis]
  | cons b rest ih =>
    intro a visited fuel hchain hlast hvis hfuel
    obtain ⟨n, rfl⟩ : ∃ n, fuel = n + 1 := ⟨fuel - 1, by omega⟩
    simp only [isChainB, Bool.and_eq_true, decide_eq_true_eq] at hchain
    obtain ⟨⟨hstore, hb⟩, hrest⟩ := hchain
    simp only [List.getLastD_cons] at hlast
    by_cases hmem : a ∈ visited
    · simp [icfLoop, hmem]
    · simp only [icfLoop, if_neg hmem, hstore, if_neg hb]
      exact ih b (a :: visited) n hrest hlast (List.mem_cons_of_mem a hvis)
        (by simpa using Nat.lt_of_succ_lt_succ hfuel)

/-- C3 counterexample, two independent failures of the claim as stated.
First: with rules `-1 → 5` and `5 → -1` persisted, re-adding `-1 → 5`
is not rejected (the stored target `-1` collides with the
`rule.get("target_id", -1)` sentinel and breaks the walk).  Second: a
chain of exactly 20 persisted hops from the proposed target (1) back to
the proposed source (21) is not detected — the 20-iteration loop checks
only the first 19 hops' endpoints — so the rule `21 → 1` is persisted
and closes a cycle. -/
theorem C3_counterexample :
    is_circular_forward
      (fun k => if k = -1 then some 5 else if k = 5 then some (-1) else none) (-1) 5 = false ∧
    (shift_set_rule
      (fun k => if k = -1 then some 5 else if k = 5 then some (-1) else none) (-1) 5).accepted
        = true ∧
    isChainB (fun k => if 1 ≤ k && k ≤ 20 then some (k + 1) else none) 1
      [2, 3, 4, 5, 6, 7, 8, 9, 10, 11, 12, 13, 14, 15, 16, 17, 18, 19, 20, 21] = true ∧
    is_circular_forward (fun k => if 1 ≤ k && k ≤ 20 then some (k + 1) else none) 21 1
      = false ∧
    (shift_set_rule (fun k => if 1 ≤ k && k ≤ 20 then some (k + 1) else none) 21 1).accepted
      = true ∧
    (shift_set_rule (fun k => if 1 ≤ k && k ≤ 20 then some (k + 1) else none) 21 1).store 21
      = some 1 := by
  refine ⟨by decide, by decide, by decide, by decide, by decide, by decide⟩

/-- C3 (amended): whenever a chain of at most 19 persisted rules —
equivalently, a cycle of at most 20 hops counting the new edge — leads
from the proposed target back to the proposed source, with no
intermediate stored target equal to the `-1` sentinel,
`is_circular_forward` detects the cycle and `shift_func_set` leaves the
rule store unchanged. -/
theorem C3_cycle_detection (store : RuleStore) (s t : Int) (cs : List Int)
    (hchain : isChainB store t cs = true) (hlast : cs.getLastD t = s)
    (hlen : cs.length ≤ 19) :
    is_circular_forward store s t = true ∧
    (shift_set_rule store s t).accepted = false ∧
    (shift_set_rule store s t).store = store := by
  have hcirc : is_circular_forward store s t = true := by
    unfold is_circular_forward
    by_cases hst : s = t
    · simp [hst]
    · rw [if_neg hst]
      exact icfLoop_reaches_visited store s cs t [s] 20 hchain hlast (by simp) (by omega)
  refine ⟨hcirc, ?_, ?_⟩ <;> simp [shift_set_rule, hcirc]

/-- Witness for C3 with the two-cycle `1 → 2`, `2 → 1` and the attempt
to re-add `1 → 2`. -/
theorem C3_cycle_detection_witness :
    is_circular_forward
      (fun k => if k = 1 then some 2 else if k = 2 then some 1 else none) 1 2 = true ∧
    (shift_set_rule
      (fun k => if k = 1 then some 2 else if k = 2 then some 1 else none) 1 2).accepted
        = false ∧
    (shift_set_rule
      (fun k => if k = 1 then some 2 else if k = 2 then some 1 else none) 1 2).store
      = (fun k => if k = 1 then some 2 else if k = 2 then some 1 else none) :=
  C3_cycle_detection
    (fun k => if k = 1 then some 2 else if k = 2 then some 1 else none) 1 2 [1]
    (by decide) (by decide) (by decide)

end Shift

namespace Aban

/-- C6 counterexample: a non-numeric minutes value is NOT rejected —
`mute_user` treats it as the start of the reason and proceeds with the
default 60 minutes, while the claim (`mute_user_parse_claim`) expects
the invocation to be rejected. -/
theorem C6_counterexample :
    mute_user_parse ["@user", "abc"] = (60, "abc") ∧
    mute_user_parse_claim ["@user", "abc"] = none := by
  constructor
  · rfl
  · rfl

/-- C6 (amended): the minutes argument is clamped into 1…1440
(`'0'` → 1, `'5000'` → 1440), the duration defaults to 60 when no
minutes argument is given, and a non-numeric second argument is not
rejected: it leaves the default 60 minutes and becomes, with the
remaining tokens, the reason. -/
theorem C6_mute_minutes_parsing (u s : String) (rest : List String) :
    mute_user_parse [u, "0"] = (1, DEFAULT_MUTE_REASON) ∧
    mute_user_parse [u, "5000"] = (1440, DEFAULT_MUTE_REASON) ∧
    mute_user_parse [u] = (60, DEFAULT_MUTE_REASON) ∧
    (pyIsDigit s = true →
      (mute_user_parse (u :: s :: rest)).1 =
        max 1 (min (Py.digitsToNat s.toList) 1440) ∧
      1 ≤ (mute_user_parse (u :: s :: rest)).1 ∧
      (mute_user_parse (u :: s :: rest)).1 ≤ 1440) ∧
    (pyIsDigit s = false →
      mute_user_parse (u :: s :: rest) = (60, String.intercalate " " (s :: rest))) := by
  refine ⟨rfl, rfl, rfl, ?_, ?_⟩
  · intro hs
    have h1 : (mute_user_parse (u :: s :: rest)).1 =
        max 1 (min (Py.digitsToNat s.toList) 1440) := by
      simp [mute_user_parse, hs]
    exact ⟨h1, by rw [h1]; omega, by rw [h1]; omega⟩
  · intro hs
    simp [mute_user_parse, hs]

/-- Witness for C6 at a digit input `'77'` and a non-digit input
`'spam'`. -/
theorem C6_mute_minutes_parsing_witness :
    (mute_user_parse ["@u", "77"]).1 = max 1 (min (Py.digitsToNat "77".toList) 1440) ∧
    mute_user_parse ["@u", "spam", "x"] = (60, String.intercalate " " ["spam", "x"]) :=
  ⟨((C6_mute_minutes_parsing "@u" "77" []).2.2.2.1 (by decide)).1,
   (C6_mute_minutes_parsing "@u" "spam" ["x"]).2.2.2.2 (by decide)⟩

theorem batchLoop_eq_foldl (action : Group → Bool) :
    ∀ (n : Nat) (gs : List Group) (acc : BatchResult), gs.length ≤ n →
      batchLoop action gs acc = (gs.map (processGroup action)).foldl batchStep acc := by
  intro n
  induction n with
  | zero =>
    intro gs acc h
    obtain rfl : gs = [] := List.eq_nil_of_length_eq_zero (by omega)
    simp [batchLoop]
  | succ n ih =>
    intro gs acc h
    cases gs with
    | nil => simp [batchLoop]
    | cons g tl =>
      rw [batchLoop]
      rw [ih (tl.drop (BATCH_SIZE - 1)) _
        (by have := List.length_drop (BATCH_SIZE - 1) tl; simp at h; omega)]
      rw [← List.foldl_append, ← List.map_append]
      have : (g :: tl.take (BATCH_SIZE - 1)) ++ tl.drop (BATCH_SIZE - 1) = g :: tl := by
        rw [List.cons_append, List.take_append_drop]
      rw [this]

theorem foldl_batchStep_spec (action : Group → Bool) :
    ∀ (gs : List Group) (acc : BatchResult),
      (gs.map (processGroup action)).foldl batchStep acc =
        ⟨acc.success + (gs.filter action).length,
         acc.failed + (gs.filter (fun g => !action g)).length,
         acc.failedGroups ++
           ((gs.filter (fun g => !action g)).map Group.title).filter
             (fun t => !t.isEmpty)⟩ := by
  intro gs
  induction gs with
  | nil => intro acc; simp
  | cons g tl ih =>
    intro acc
    by_cases hg : action g
    · have h1 : processGroup action g = (true, none) := by simp [processGroup, hg]
      have h2 : batchStep acc (true, none) = { acc with success := acc.success + 1 } := rfl
      rw [List.map_cons, List.foldl_cons, h1, h2, ih]
      simp [List.filter_cons, hg]
      omega
    · have h1 : processGroup action g = (false, some g.title) := by simp [processGroup, hg]
      have h2 : batchStep acc (false, some g.title) =
          ⟨acc.success, acc.failed + 1,
           if g.title.isEmpty then acc.failedGroups
           else acc.failedGroups ++ [g.title]⟩ := rfl
      rw [List.map_cons, List.foldl_cons, h1, h2, ih]
      by_cases ht : g.title.isEmpty
      · simp [List.filter_cons, hg, ht]
        omega
      · simp [List.filter_cons, hg, ht, List.append_assoc]
        omega

/-- C9: over any list of managed groups with a deterministic per-group
outcome, the batch ban operation reports `success = N - M` and
`failed = M`, where `M` is the number of failing groups; the failing
titles are accumulated in order (non-empty ones), and the report lists
at most 3 of them, always a prefix of the failing titles. -/
theorem C9_batch_ban_operation_counts (action : Group → Bool) (groups : List Group) :
    (batch_ban_operation action groups).success =
      groups.length - (groups.filter (fun g => !action g)).length ∧
    (batch_ban_operation action groups).failed =
      (groups.filter (fun g => !action g)).length ∧
    (batch_ban_operation action groups).failedGroups =
      ((groups.filter (fun g => !action g)).map Group.title).filter (fun t => !t.isEmpty) ∧
    (listedFailedTitles (batch_ban_operation action groups)).length ≤ 3 ∧
    listedFailedTitles (batch_ban_operation action groups) =
      (batch_ban_operation action groups).failedGroups.take
        (listedFailedTitles (batch_ban_operation action groups)).length := by
  have hb : batch_ban_operation action groups =
      ⟨(groups.filter action).length,
       (groups.filter (fun g => !action g)).length,
       ((groups.filter (fun g => !action g)).map Group.title).filter
         (fun t => !t.isEmpty)⟩ := by
    unfold batch_ban_operation
    rw [batchLoop_eq_foldl action groups.length groups _ le_rfl, foldl_batchStep_spec]
    simp
  have hsplit : ∀ (l : List Group), (l.filter action).length +
      (l.filter (fun g => !action g)).length = l.length := by
    intro l
    induction l with
    | nil => simp
    | cons g tl ihs =>
      by_cases hg : action g <;> simp [List.filter_cons, hg] <;> omega
  have hs := hsplit groups
  have hlist : ∀ r : BatchResult, (listedFailedTitles r).length ≤ 3 ∧
      listedFailedTitles r = r.failedGroups.take (listedFailedTitles r).length := by
    intro r
    unfold listedFailedTitles
    split
    · constructor
      · rw [List.length_take]; omega
      · rw [List.length_take, List.take_eq_take]
        omega
    · exact ⟨by simp, by simp⟩
  refine ⟨?_, ?_, ?_, (hlist _).1, (hlist _).2⟩
  · simp only [hb]
    omega
  · simp only [hb]
  · simp only [hb]

end Aban

namespace BF

open Py

theorem checkAllMembers_error_of_mem (target : List Comp) :
    ∀ (ms : List TarMember) (m : TarMember), m ∈ ms →
      isError (checkMember target m) = true →
      isError (checkAllMembers target ms) = true := by
  intro ms
  induction ms with
  | nil => intro m hm; simp at hm
  | cons m0 rest ih =>
    intro m hm hbad
    rcases List.mem_cons.mp hm with rfl | hm'
    · cases hcm : checkMember target m with
      | error e => simp [checkAllMembers, hcm, isError]
      | ok u => rw [hcm] at hbad; simp [isError] at hbad
    · cases hcm : checkMember target m0 with
      | error e => simp [checkAllMembers, hcm, isError]
      | ok u =>
        cases u
        simp only [checkAllMembers, hcm]
        exact ih m hm' hbad

theorem checkMember_error_of_bad (target : List Comp) (m : TarMember)
    (hbad : m.isAbs = true ∨
      isPrefixB target (normAbs (target ++ normRel m.comps)) = false ∨
      ((normRel m.comps).headD ".") ∉ ALLOWED_DIRS) :
    isError (checkMember target m) = true := by
  rcases hbad with h | h | h
  · simp [checkMember, h, isError]
  · by_cases h1 : m.isAbs
    · simp [checkMember, h1, isError]
    · simp [checkMember, h1, h, isError]
  · by_cases h1 : m.isAbs
    · simp [checkMember, h1, isError]
    · by_cases h2 : isPrefixB target (normAbs (target ++ normRel m.comps)) = true
      · have h' : ¬((normRel m.comps).head?.getD "." ∈ ALLOWED_DIRS) := by
          simpa using h
        simp [checkMember, h1, h2, h', isError]
      · simp only [Bool.not_eq_true] at h2
        simp [checkMember, h1, h2, isError]

/-- C1: if any archive member has an absolute path, a path that resolves
outside the extraction root after normalization, or a top-level
component outside `{plugins, data, pagermaid_backup}`, then
`safe_extract` raises (the per-member checks all run before
`tar.extractall`) and `un_tar_gz` reports failure with no file
written. -/
theorem C1_safe_extract_rejects (target : List Comp) (members : List TarMember)
    (m : TarMember) (hm : m ∈ members)
    (hbad : m.isAbs = true ∨
      isPrefixB target (normAbs (target ++ normRel m.comps)) = false ∨
      ((normRel m.comps).headD ".") ∉ ALLOWED_DIRS) :
    isError (safe_extract target members) = true ∧
    un_tar_gz target members = (false, []) := by
  have h1 := checkMember_error_of_bad target m hbad
  have h2 := checkAllMembers_error_of_mem target members m hm h1
  cases hca : checkAllMembers target members with
  | error e =>
    exact ⟨by simp [safe_extract, hca, isError], by simp [un_tar_gz, safe_extract, hca]⟩
  | ok u => rw [hca] at h2; simp [isError] at h2

/-- Witness for C1: an archive with the single member `../evil`
extracted into `/tmp/x`. -/
theorem C1_safe_extract_rejects_witness :
    isError (safe_extract ["tmp", "x"] [⟨false, ["..", "evil"], "c"⟩]) = true ∧
    un_tar_gz ["tmp", "x"] [⟨false, ["..", "evil"], "c"⟩] = (false, []) :=
  C1_safe_extract_rejects ["tmp", "x"] [⟨false, ["..", "evil"], "c"⟩]
    ⟨false, ["..", "evil"], "c"⟩ (by simp) (Or.inr (Or.inl (by decide)))

theorem foldl_normRelStep_wf :
    ∀ (cs : List Comp) (acc : List Comp), (∀ c ∈ cs, wfComp c = true) →
      cs.foldl normRelStep acc = acc ++ cs := by
  intro cs
  induction cs with
  | nil => intro acc _; simp
  | cons c rest ih =>
    intro acc hwf
    have hstep : normRelStep acc c = acc ++ [c] := by
      have h' : wfComp c = true := hwf c (by simp)
      by_cases h1 : c = ""
      · rw [h1] at h'; simp [wfComp] at h'
      · by_cases h2 : c = "."
        · rw [h2] at h'; simp [wfComp] at h'
        · by_cases h3 : c = ".."
          · rw [h3] at h'; simp [wfComp] at h'
          · simp [normRelStep, h1, h2, h3]
    rw [List.foldl_cons, hstep, ih (acc ++ [c]) (fun x hx => hwf x (by simp [hx]))]
    simp

theorem normRel_wf (cs : List Comp) (h : ∀ c ∈ cs, wfComp c = true) :
    normRel cs = cs := by
  have := foldl_normRelStep_wf cs [] h
  simpa [normRel] using this

theorem foldl_normAbsStep_wf :
    ∀ (cs : List Comp) (acc : List Comp), (∀ c ∈ cs, wfComp c = true) →
      cs.foldl normAbsStep acc = acc ++ cs := by
  intro cs
  induction cs with
  | nil => intro acc _; simp
  | cons c rest ih =>
    intro acc hwf
    have hstep : normAbsStep acc c = acc ++ [c] := by
      have h' : wfComp c = true := hwf c (by simp)
      by_cases h1 : c = ""
      · rw [h1] at h'; simp [wfComp] at h'
      · by_cases h2 : c = "."
        · rw [h2] at h'; simp [wfComp] at h'
        · by_cases h3 : c = ".."
          · rw [h3] at h'; simp [wfComp] at h'
          · simp [normAbsStep, h1, h2, h3]
    rw [List.foldl_cons, hstep, ih (acc ++ [c]) (fun x hx => hwf x (by simp [hx]))]
    simp

theorem normAbs_wf (cs : List Comp) (h : ∀ c ∈ cs, wfComp c = true) :
    normAbs cs = cs := by
  have := foldl_normAbsStep_wf cs [] h
  simpa [normAbs] using this

theorem isPrefixB_self_append : ∀ (t rest : List Comp), isPrefixB t (t ++ rest) = true := by
  intro t rest
  induction t with
  | nil => simp [isPrefixB]
  | cons a as ih => simp [isPrefixB, ih]

theorem checkMember_backup_ok (target : List Comp) (p : List Comp) (c : String)
    (htgt : ∀ x ∈ target, wfComp x = true) (hp : ∀ x ∈ p, wfComp x = true) :
    checkMember target ⟨false, "pagermaid_backup" :: p, c⟩ = Except.ok () := by
  have hwf : ∀ x ∈ ("pagermaid_backup" :: p), wfComp x = true := by
    intro x hx
    rcases List.mem_cons.mp hx with rfl | hx'
    · decide
    · exact hp x hx'
  have h1 : normRel ("pagermaid_backup" :: p) = "pagermaid_backup" :: p :=
    normRel_wf _ hwf
  have h2 : normAbs (target ++ ("pagermaid_backup" :: p)) =
      target ++ ("pagermaid_backup" :: p) := by
    refine normAbs_wf _ ?_
    intro x hx
    rcases List.mem_append.mp hx with hx' | hx'
    · exact htgt x hx'
    · exact hwf x hx'
  simp [checkMember, h1, h2, isPrefixB_self_append, ALLOWED_DIRS]

theorem checkAllMembers_ok (target : List Comp) :
    ∀ (ms : List TarMember), (∀ m ∈ ms, checkMember target m = Except.ok ()) →
      checkAllMembers target ms = Except.ok () := by
  intro ms
  induction ms with
  | nil => intro _; rfl
  | cons m0 rest ih =>
    intro h
    have h0 := h m0 (by simp)
    simp only [checkAllMembers, h0]
    exact ih (fun m hm => h m (by simp [hm]))

theorem mem_create_backup (fs : FS) (ex : Bool) (root : Comp) (mem : TarMember)
    (hm : mem ∈ create_data_plugins_backup fs ex root) :
    ∃ e ∈ fs, (backupIncludes ex "plugins" e.1 = true ∨ backupIncludes ex "data" e.1 = true) ∧
      mem = ⟨false, root :: e.1, e.2⟩ := by
  unfold create_data_plugins_backup at hm
  rcases List.mem_map.mp hm with ⟨e, he, rfl⟩
  rcases List.mem_append.mp he with h | h
  · exact ⟨e, (List.mem_filter.mp h).1, Or.inl (List.mem_filter.mp h).2, rfl⟩
  · exact ⟨e, (List.mem_filter.mp h).1, Or.inr (List.mem_filter.mp h).2, rfl⟩

theorem create_backup_mem (fs : FS) (ex : Bool) (root : Comp) (p : List Comp) (c : String)
    (hmem : (p, c) ∈ fs)
    (hinc : backupIncludes ex "plugins" p = true ∨ backupIncludes ex "data" p = true) :
    (⟨false, root :: p, c⟩ : TarMember) ∈ create_data_plugins_backup fs ex root := by
  unfold create_data_plugins_backup
  refine List.mem_map.mpr ⟨(p, c), ?_, rfl⟩
  rcases hinc with h | h
  · exact List.mem_append.mpr (Or.inl (List.mem_filter.mpr ⟨hmem, h⟩))
  · exact List.mem_append.mpr (Or.inr (List.mem_filter.mpr ⟨hmem, h⟩))

theorem backupIncludes_head (ex : Bool) (t : Comp) (p : List Comp)
    (h : backupIncludes ex t p = true) : p.headD "" = t := by
  cases p with
  | nil => simp [backupIncludes] at h
  | cons top rest =>
    simp only [backupIncludes, Bool.and_eq_true, beq_iff_eq] at h
    simp [h.1.1.1]

theorem lookup_eq_of_mem_nodup {β : Type} :
    ∀ (L : List (List Comp × β)) (p : List Comp) (c : β),
      (L.map Prod.fst).Nodup → (p, c) ∈ L → L.lookup p = some c := by
  intro L
  induction L with
  | nil => intro p c _ h; simp at h
  | cons hd tl ih =>
    intro p c hnd hm
    obtain ⟨q, d⟩ := hd
    rcases List.mem_cons.mp hm with heq | hm'
    · obtain ⟨rfl, rfl⟩ : p = q ∧ c = d := by simpa using heq
      simp [List.lookup]
    · have hptl : p ∈ tl.map Prod.fst :=
        List.mem_map.mpr ⟨(p, c), hm', rfl⟩
      have hqp : ¬(p == q) = true := by
        intro hb
        have : p = q := by simpa using hb
        subst this
        exact (List.nodup_cons.mp hnd).1 hptl
      simp only [List.lookup, Bool.not_eq_true] at hqp ⊢
      rw [hqp]
      exact ih p c (List.nodup_cons.mp hnd).2 hm'

theorem backup_keys_nodup (fs : FS) (hnd : (fs.map Prod.fst).Nodup) (ex : Bool)
    (root : Comp) :
    ((create_data_plugins_backup fs ex root).map (fun m => m.comps)).Nodup := by
  unfold create_data_plugins_backup
  rw [List.map_map]
  have heq : ((fs.filter (fun e => backupIncludes ex "plugins" e.1)) ++
      (fs.filter (fun e => backupIncludes ex "data" e.1))).map
        ((fun m => m.comps) ∘ (fun e : List Comp × String => (⟨false, root :: e.1, e.2⟩ : TarMember))) =
      (((fs.filter (fun e => backupIncludes ex "plugins" e.1)) ++
        (fs.filter (fun e => backupIncludes ex "data" e.1))).map Prod.fst).map
          (fun q => root :: q) := by
    rw [List.map_map]
    rfl
  rw [heq]
  refine List.Nodup.map (fun a b hab => by simpa using hab) ?_
  rw [List.map_append]
  refine List.Nodup.append ?_ ?_ ?_
  · exact ((List.filter_sublist fs).map Prod.fst).nodup hnd
  · exact ((List.filter_sublist fs).map Prod.fst).nodup hnd
  · intro x hxp hxd
    rcases List.mem_map.mp hxp with ⟨e, he, rfl⟩
    rcases List.mem_map.mp hxd with ⟨e', he', hee⟩
    have h1 : e.1.headD "" = "plugins" :=
      backupIncludes_head ex _ _ (List.mem_filter.mp he).2
    have h2 : e'.1.headD "" = "data" :=
      backupIncludes_head ex _ _ (List.mem_filter.mp he').2
    rw [hee] at h2
    rw [h1] at h2
    exact absurd h2 (by decide)

theorem backupIncludes_not_session (t root : Comp) (q : List Comp)
    (h : backupIncludes true t q = true) :
    isSessionFile ((root :: q).getLastD "") = false := by
  cases q with
  | nil => simp [backupIncludes] at h
  | cons top rest =>
    simp only [backupIncludes, Bool.and_eq_true, Bool.not_eq_eq_eq_not, Bool.not_true,
      Bool.not_eq_true] at h
    have hrest : rest ≠ [] := by
      intro hnil
      rw [hnil] at h
      simp at h
    have hsession : isSessionFile (rest.getLastD "") = false := by
      have := h.2
      simp only [Bool.and_eq_false_iff] at this
      rcases this with h' | h'
      · simp at h'
      · exact h'
    have hgl : (root :: top :: rest).getLastD "" = rest.getLastD "" := by
      cases rest with
      | nil => exact absurd rfl hrest
      | cons r rs => rfl
    rw [hgl]
    exact hsession

/-- C2 counterexample: a non-session file lying under a `__pycache__`
directory is pruned by the backup walk, so it is not reproduced by the
backup/extract round trip, contradicting the claim's "every original
non-session file". -/
theorem C2_counterexample :
    create_data_plugins_backup [(["data", "__pycache__", "a.txt"], "x")] true
      "pagermaid_backup" = [] ∧
    isSessionFile "a.txt" = false ∧
    (un_tar_gz ["tmp"]
      (create_data_plugins_backup [(["data", "__pycache__", "a.txt"], "x")] true
        "pagermaid_backup")).2.lookup
      ["pagermaid_backup", "data", "__pycache__", "a.txt"] = none := by
  refine ⟨by decide, by decide, by decide⟩

/-- C2 (amended): for every well-formed tree, a standard backup
(`exclude_session = True`) followed by extraction succeeds, reproduces
the exact content of every original file under `data/` or `plugins/`
that is neither a session file nor inside a `__pycache__` directory,
and the extracted result contains no `*.session` /
`*.session-journal` file. -/
theorem C2_backup_roundtrip (fs : FS) (target : List Comp) (p : List Comp) (c : String)
    (hwf : wfFS fs) (htgt : ∀ x ∈ target, wfComp x = true)
    (hmem : (p, c) ∈ fs)
    (hinc : backupIncludes true "plugins" p = true ∨ backupIncludes true "data" p = true) :
    (un_tar_gz target (create_data_plugins_backup fs true "pagermaid_backup")).1 = true ∧
    (un_tar_gz target (create_data_plugins_backup fs true "pagermaid_backup")).2.lookup
      ("pagermaid_backup" :: p) = some c ∧
    (un_tar_gz target (create_data_plugins_backup fs true "pagermaid_backup")).2.all
      (fun e => !isSessionFile (e.1.getLastD "")) = true := by
  set members := create_data_plugins_backup fs true "pagermaid_backup" with hmembers
  have hwfpaths : ∀ e ∈ fs, ∀ x ∈ e.1, wfComp x = true := by
    intro e he x hx
    have := hwf.2 e he
    simp only [wfPath, Bool.and_eq_true, List.all_eq_true] at this
    exact this.2 x hx
  have hallok : ∀ m ∈ members, checkMember target m = Except.ok () := by
    intro m hm
    obtain ⟨e, he, _, rfl⟩ := mem_create_backup fs true "pagermaid_backup" m hm
    exact checkMember_backup_ok target e.1 e.2 htgt (hwfpaths e he)
  have hok : safe_extract target members =
      Except.ok (members.map (fun m => (m.comps, m.content))) := by
    unfold safe_extract
    rw [checkAllMembers_ok target members hallok]
  have hun : un_tar_gz target members =
      (true, members.map (fun m => (m.comps, m.content))) := by
    unfold un_tar_gz
    rw [hok]
  refine ⟨by rw [hun], ?_, ?_⟩
  · rw [hun]
    have hkeys : ((members.map (fun m => (m.comps, m.content))).map Prod.fst).Nodup := by
      rw [List.map_map]
      exact backup_keys_nodup fs hwf.1 true "pagermaid_backup"
    have hentry : (("pagermaid_backup" :: p : List Comp), c) ∈
        members.map (fun m => (m.comps, m.content)) :=
      List.mem_map.mpr ⟨⟨false, "pagermaid_backup" :: p, c⟩,
        create_backup_mem fs true "pagermaid_backup" p c hmem hinc, rfl⟩
    exact lookup_eq_of_mem_nodup _ _ _ hkeys hentry
  · rw [hun]
    rw [List.all_eq_true]
    intro e he
    rcases List.mem_map.mp he with ⟨m, hm, rfl⟩
    obtain ⟨e', he', hinc', rfl⟩ := mem_create_backup fs true "pagermaid_backup" m hm
    rcases hinc' with h | h <;>
    · have hs := backupIncludes_not_session _ "pagermaid_backup" _ h
      simp only [List.getLastD_eq_getLast?] at hs
      simp [hs]

/-- Witness for C2 on a small concrete tree containing a config file, a
plugin file and a session file. -/
theorem C2_backup_roundtrip_witness :
    (un_tar_gz ["tmp"]
      (create_data_plugins_backup
        [(["data", "cfg.json"], "x"), (["plugins", "a.py"], "y"),
         (["data", "s.session"], "z")] true "pagermaid_backup")).1 = true ∧
    (un_tar_gz ["tmp"]
      (create_data_plugins_backup
        [(["data", "cfg.json"], "x"), (["plugins", "a.py"], "y"),
         (["data", "s.session"], "z")] true "pagermaid_backup")).2.lookup
      ["pagermaid_backup", "data", "cfg.json"] = some "x" ∧
    (un_tar_gz ["tmp"]
      (create_data_plugins_backup
        [(["data", "cfg.json"], "x"), (["plugins", "a.py"], "y"),
         (["data", "s.session"], "z")] true "pagermaid_backup")).2.all
      (fun e => !isSessionFile (e.1.getLastD "")) = true :=
  C2_backup_roundtrip
    [(["data", "cfg.json"], "x"), (["plugins", "a.py"], "y"),
     (["data", "s.session"], "z")]
    ["tmp"] ["data", "cfg.json"] "x"
    (by constructor
        · decide
        · decide)
    (by decide) (by decide) (Or.inr (by decide))

theorem memB_eq_true_iff (v : Int) : ∀ xs : List Int, memB v xs = true ↔ v ∈ xs := by
  intro xs
  induction xs with
  | nil => simp [memB]
  | cons x xs ih =>
    simp only [memB, Bool.or_eq_true, beq_iff_eq, ih, List.mem_cons]
    constructor
    · rintro (rfl | hv)
      · exact Or.inl rfl
      · exact Or.inr hv
    · rintro (rfl | hv)
      · exact Or.inl rfl
      · exact Or.inr hv

theorem pyRange_one (a b : Int) :
    pyRange a b 1 = (List.range (b - a).toNat).map (fun (k : Nat) => a + (k : Int)) := by
  unfold pyRange
  norm_num

theorem memB_pyRange_one (a b v : Int) :
    memB v (pyRange a b 1) = true ↔ a ≤ v ∧ v < b := by
  rw [memB_eq_true_iff, pyRange_one]
  constructor
  · intro hv
    rcases List.mem_map.mp hv with ⟨k, hk, rfl⟩
    rw [List.mem_range] at hk
    constructor <;> omega
  · rintro ⟨h1, h2⟩
    refine List.mem_map.mpr ⟨(v - a).toNat, ?_, by omega⟩
    rw [List.mem_range]
    omega

/-- C5 counterexample: under the claim's rule ("OR when either field is
non-wildcard"), `10 0 1 * *` would match on January 2nd at 00:10 (the
wildcard day-of-week side is always true); the code's `_cron_matches`
uses OR only when both fields are non-wildcard and does not match. -/
theorem C5_counterexample :
    cron_matches "10 0 1 * *" ⟨10, 0, 2, 1, 0⟩ = false ∧
    cron_matches_claim "10 0 1 * *" ⟨10, 0, 2, 1, 0⟩ = true := by
  exact ⟨by decide, by decide⟩

/-- C5 (amended): day-of-month and day-of-week are combined with OR
when both are non-wildcard (non-full parsed sets) and with AND
otherwise; in particular `0 2 * * 1-5` matches every Tuesday 02:00
instant regardless of the day-of-month, and `10 0 1 * *` matches only
at minute 10, hour 0, day 1. -/
theorem C5_cron_dom_dow_semantics (d mo mi hr dd m2 w : Int)
    (hd1 : 1 ≤ d) (hd2 : d ≤ 31) (hmo1 : 1 ≤ mo) (hmo2 : mo ≤ 12) :
    cron_matches "0 2 * * 1-5" ⟨0, 2, d, mo, 1⟩ = true ∧
    (cron_matches "10 0 1 * *" ⟨mi, hr, dd, m2, w⟩ = true →
      mi = 10 ∧ hr = 0 ∧ dd = 1) := by
  have e1 : cron_matches "0 2 * * 1-5" ⟨0, 2, d, mo, 1⟩ =
      (memB mo (pyRange 1 13 1) &&
        (memB d (pyRange 1 32 1) && memB 2 [1, 2, 3, 4, 5])) := rfl
  have e2 : cron_matches "10 0 1 * *" ⟨mi, hr, dd, m2, w⟩ =
      (memB mi [10] && memB hr [0] && memB m2 (pyRange 1 13 1) &&
        (memB dd [1] && memB ((w + 1) % 7) (pyRange 0 7 1))) := rfl
  constructor
  · rw [e1]
    have hdom : memB d (pyRange 1 32 1) = true :=
      (memB_pyRange_one 1 32 d).mpr ⟨hd1, by omega⟩
    have hmon : memB mo (pyRange 1 13 1) = true :=
      (memB_pyRange_one 1 13 mo).mpr ⟨hmo1, by omega⟩
    simp only [Bool.and_eq_true]
    exact ⟨hmon, hdom, by decide⟩
  · intro hmatch
    rw [e2] at hmatch
    simp only [Bool.and_eq_true, memB_eq_true_iff, List.mem_singleton] at hmatch
    obtain ⟨⟨⟨h1, h2⟩, h3⟩, h4, h5⟩ := hmatch
    exact ⟨h1, h2, h4⟩

/-- Witness for C5: a Tuesday June 15 02:00 instant for the first
expression, and June 1 00:10 for the second. -/
theorem C5_cron_dom_dow_semantics_witness :
    cron_matches "0 2 * * 1-5" ⟨0, 2, 15, 6, 1⟩ = true ∧
    (cron_matches "10 0 1 * *" ⟨10, 0, 1, 6, 3⟩ = true →
      (10 : Int) = 10 ∧ (0 : Int) = 0 ∧ (1 : Int) = 1) :=
  C5_cron_dom_dow_semantics 15 6 10 0 1 6 3 (by decide) (by decide) (by decide) (by decide)

end BF

namespace Gemini

/-- C7: when the provider-reported token count of the (sanitized) TTS
input exceeds 1500, the synthesis endpoint is never called — the token
check raises first — and, on the combined audio-or-text request path,
the final delivered message is a textual reply, not a voice note. -/
theorem C7_tts_token_limit (env : TtsEnv) (text : String)
    (hne : env.cleanText text ≠ "")
    (hcount : env.tokenCount (env.cleanText text) > 1500) :
    blocking_tts_call env text =
      ([GeminiCall.countTokens],
       TtsOutcome.tokenLimitError (env.tokenCount (env.cleanText text))) ∧
    GeminiCall.synthesize ∉ (blocking_tts_call env text).1 ∧
    (execute_audio_request env text).2 = Delivered.textReply ∧
    GeminiCall.synthesize ∉ (execute_audio_request env text).1 := by
  have hb : blocking_tts_call env text =
      ([GeminiCall.countTokens],
       TtsOutcome.tokenLimitError (env.tokenCount (env.cleanText text))) := by
    simp [blocking_tts_call, hne, hcount]
  have he : execute_audio_request env text = ([GeminiCall.countTokens], Delivered.textReply) := by
    simp [execute_audio_request, hb]
  refine ⟨hb, ?_, ?_, ?_⟩
  · simp [hb]
  · rw [he]
  · simp [he]

/-- Witness for C7 with a sanitizer that keeps the text and a provider
reporting 1501 tokens. -/
theorem C7_tts_token_limit_witness :
    blocking_tts_call ⟨fun t => t, fun _ => 1501, true⟩ "hello" =
      ([GeminiCall.countTokens], TtsOutcome.tokenLimitError 1501) ∧
    GeminiCall.synthesize ∉ (blocking_tts_call ⟨fun t => t, fun _ => 1501, true⟩ "hello").1 ∧
    (execute_audio_request ⟨fun t => t, fun _ => 1501, true⟩ "hello").2 = Delivered.textReply ∧
    GeminiCall.synthesize ∉ (execute_audio_request ⟨fun t => t, fun _ => 1501, true⟩ "hello").1 :=
  C7_tts_token_limit ⟨fun t => t, fun _ => 1501, true⟩ "hello" (by decide) (by decide)

end Gemini

namespace CleanMember

/-- C8: a cache record whose `expire_time` is strictly before the
current time is reported absent by `load_cache` and its backing file is
deleted by that read; conversely any record `load_cache` does return is
not past its expiry, so no cleanup run ever consumes an expired
entry. -/
theorem C8_load_cache_expiry (fs : CacheFS) (now : Int) (key : CacheKey)
    (e e' : CacheEntry) (h : fs key = some (StoredCache.ok e)) :
    (e.expire_time < now →
      (load_cache fs now key).1 = none ∧ (load_cache fs now key).2 key = none) ∧
    ((load_cache fs now key).1 = some e' → now ≤ e'.expire_time) := by
  constructor
  · intro hexp
    have hgt : now > e.expire_time := hexp
    constructor
    · simp [load_cache, h, hgt]
    · simp [load_cache, h, hgt]
  · intro hsome
    simp only [load_cache, h] at hsome
    by_cases hc : now > e.expire_time
    · simp [hc] at hsome
    · simp [hc] at hsome
      subst hsome
      omega

/-- Witness for C8: a record expired at time 10 read at time 11. -/
theorem C8_load_cache_expiry_witness :
    ((10 : Int) < 11 →
      (load_cache
        (fun k => if k = ((5 : Int), "1", "7") then some (StoredCache.ok ⟨10, "p"⟩) else none)
        11 ((5 : Int), "1", "7")).1 = none ∧
      (load_cache
        (fun k => if k = ((5 : Int), "1", "7") then some (StoredCache.ok ⟨10, "p"⟩) else none)
        11 ((5 : Int), "1", "7")).2 ((5 : Int), "1", "7") = none) ∧
    ((load_cache
        (fun k => if k = ((5 : Int), "1", "7") then some (StoredCache.ok ⟨10, "p"⟩) else none)
        11 ((5 : Int), "1", "7")).1 = some ⟨10, "p"⟩ → (11 : Int) ≤ (10 : Int)) :=
  C8_load_cache_expiry
    (fun k => if k = ((5 : Int), "1", "7") then some (StoredCache.ok ⟨10, "p"⟩) else none)
    11 ((5 : Int), "1", "7") ⟨10, "p"⟩ ⟨10, "p"⟩ (by decide)

end CleanMember

end PagerMaid
